import Mathlib

/-!
Verification of the SteamSalesReporter sync engine against its specification.
The Rust sources under src-tauri are shallowly embedded: SQLite tables become
lists of row structures, fallible operations return Except, and machine
integers (Rust i64) become Int with explicit bounds where parsing matters.
Rust f64 column values are never computed with by the code under study (they
are only copied between rows), so they are represented by their IEEE-754 bit
pattern as a Nat, which preserves copy/equality semantics.
-/

namespace SteamSales

/-- Representation of a Rust f64 value by its 64-bit IEEE-754 bit pattern.
The embedded code only moves these values around, never does arithmetic. -/
abbrev F64 := Nat

/-- Bit pattern of 0.0, used for unwrap_or(0.0) in save_sales. -/
def f64Zero : F64 := 0

/-- Rust i64::MIN as an integer. -/
def i64Min : Int := -(2 ^ 63)

/-- Rust i64::MAX as an integer. -/
def i64Max : Int := 2 ^ 63 - 1

/-- Model of Rust str::parse::<i64>: an optional sign followed by at least
one ASCII digit, rejecting any other character and values out of range. -/
def parseI64 (s : String) : Option Int :=
  let cs := s.toList
  let signDigits : Int × List Char :=
    match cs with
    | '+' :: rest => (1, rest)
    | '-' :: rest => (-1, rest)
    | rest => (1, rest)
  let sign := signDigits.1
  let ds := signDigits.2
  if ds.isEmpty then none
  else if ds.any (fun c => !c.isDigit) then none
  else
    let n : Nat := ds.foldl (fun acc c => acc * 10 + (c.toNat - 48)) 0
    let v : Int := sign * (n : Int)
    if i64Min ≤ v ∧ v ≤ i64Max then some v else none

/-! ## Data model: SalesRecord (types.rs) -/

/-- Embedding of types.rs SalesRecord.  Rust i64 becomes Int, f64 becomes the
F64 bit-pattern representation, strings stay strings. -/
structure SalesRecord where
  id : Option String
  api_key_id : String
  date : String
  line_item_type : String
  partnerid : Option Int
  primary_appid : Option Int
  packageid : Option Int
  bundleid : Option Int
  appid : Option Int
  game_item_id : Option Int
  country_code : String
  platform : Option String
  currency : Option String
  base_price : Option String
  sale_price : Option String
  avg_sale_price_usd : Option String
  package_sale_type : Option String
  gross_units_sold : Option Int
  gross_units_returned : Option Int
  gross_units_activated : Option Int
  net_units_sold : Option Int
  gross_sales_usd : Option F64
  gross_returns_usd : Option F64
  net_sales_usd : Option F64
  net_tax_usd : Option F64
  combined_discount_id : Option Int
  total_discount_percentage : Option F64
  additional_revenue_share_tier : Option Int
  key_request_id : Option Int
  viw_grant_partnerid : Option Int
  app_name : Option String
  package_name : Option String
  bundle_name : Option String
  partner_name : Option String
  country_name : Option String
  region : Option String
  game_item_description : Option String
  game_item_category : Option String
  key_request_notes : Option String
  game_code_description : Option String
  combined_discount_name : Option String
  app_id : Int
  units_sold : Int
deriving DecidableEq, Repr

/-! ## Record Identity (steam_api.rs, generate_unique_key) -/

/-- Display form of an optional i64 field: the decimal representation if
present, the empty string otherwise (map(to_string).unwrap_or_default()). -/
def i64OptStr (v : Option Int) : String :=
  (v.map toString).getD ""

/-- Embedding of steam_api.rs generate_unique_key: the key is built by
successive write!(key, "{}|", field) calls, the final field without the
trailing delimiter. -/
def generate_unique_key (r : SalesRecord) : String :=
  let key := ""
  let key := key ++ i64OptStr r.partnerid ++ "|"
  let key := key ++ r.date ++ "|"
  let key := key ++ r.line_item_type ++ "|"
  let key := key ++ r.platform.getD "" ++ "|"
  let key := key ++ r.country_code ++ "|"
  let key := key ++ r.currency.getD "" ++ "|"
  let key := key ++ r.api_key_id ++ "|"
  let key := key ++ i64OptStr r.packageid ++ "|"
  let key := key ++ i64OptStr r.bundleid ++ "|"
  let key := key ++ r.package_sale_type.getD "" ++ "|"
  let key := key ++ i64OptStr r.key_request_id ++ "|"
  let key := key ++ r.base_price.getD "" ++ "|"
  let key := key ++ r.sale_price.getD "" ++ "|"
  let key := key ++ i64OptStr r.appid ++ "|"
  let key := key ++ i64OptStr r.game_item_id ++ "|"
  let key := key ++ i64OptStr r.combined_discount_id
  key

/-- Joining a list of fields with the delimiter between consecutive fields,
as the specification words it. -/
def joinWithBar : List String → String
  | [] => ""
  | [x] => x
  | x :: xs => x ++ "|" ++ joinWithBar xs

/-- Modelled from the spec wording of the identity key (section 4.2): the
ordered projection of the sixteen fields, absent optional fields contributing
an empty placeholder, joined with the delimiter. -/
def identity_key_spec (r : SalesRecord) : String :=
  joinWithBar
    [ i64OptStr r.partnerid
    , r.date
    , r.line_item_type
    , r.platform.getD ""
    , r.country_code
    , r.currency.getD ""
    , r.api_key_id
    , i64OptStr r.packageid
    , i64OptStr r.bundleid
    , r.package_sale_type.getD ""
    , i64OptStr r.key_request_id
    , r.base_price.getD ""
    , r.sale_price.getD ""
    , i64OptStr r.appid
    , i64OptStr r.game_item_id
    , i64OptStr r.combined_discount_id ]

/-! ## Credential fingerprint (commands.rs, add_api_key) -/

/-- UTF-8 encoding of a single character, written with division and
remainder by powers of two (same function as the usual shift/mask form). -/
def utf8EncodeChar (c : Char) : List Nat :=
  let v := c.toNat
  if v < 0x80 then [v]
  else if v < 0x800 then [0xC0 + v / 0x40, 0x80 + v % 0x40]
  else if v < 0x10000 then
    [0xE0 + v / 0x1000, 0x80 + v / 0x40 % 0x40, 0x80 + v % 0x40]
  else
    [0xF0 + v / 0x40000, 0x80 + v / 0x1000 % 0x40, 0x80 + v / 0x40 % 0x40,
     0x80 + v % 0x40]

/-- UTF-8 byte content of a Rust String given as its characters. -/
def utf8Encode (s : List Char) : List Nat :=
  s.flatMap utf8EncodeChar

/-- Rust str::is_char_boundary on the byte content: index 0 and the end are
boundaries, any other index must not point at a continuation byte. -/
def isCharBoundary (bytes : List Nat) (i : Nat) : Bool :=
  decide (i = 0) || decide (i = bytes.length) ||
    decide (bytes.getD i 0 / 0x40 ≠ 2)

/-- Embedding of the key_hash computation in commands.rs add_api_key: Rust
String::len and byte slicing key[key.len()-4..] operate on UTF-8 bytes; the
slice panics (modelled as none) when the start index is not a character
boundary. -/
def key_hash_of_bytes (key : List Nat) : Option (List Nat) :=
  if 4 ≤ key.length then
    let i := key.length - 4
    if isCharBoundary key i then some (key.drop i) else none
  else some key

/-- Spec-worded fingerprint: last four characters when the secret has at
least four characters, the entire secret otherwise. -/
def keyHashCharsSpec (s : List Char) : List Char :=
  if 4 ≤ s.length then s.drop (s.length - 4) else s

/-! ## Local Store: the sales table (database/sales.rs) -/

/-- Embedding of one row of the version-3 sales table.  The first eleven
columns are NOT NULL in the schema; the columns added by migrate_to_v3 are
nullable. -/
structure SalesRow where
  id : String
  date : String
  app_id : Int
  app_name : Option String
  package_id : Int
  country_code : String
  units_sold : Int
  gross_revenue : F64
  net_revenue : F64
  currency : String
  api_key_id : String
  line_item_type : Option String
  partnerid : Option Int
  primary_appid : Option Int
  bundleid : Option Int
  appid : Option Int
  game_item_id : Option Int
  platform : Option String
  base_price : Option String
  sale_price : Option String
  avg_sale_price_usd : Option String
  package_sale_type : Option String
  gross_units_sold : Option Int
  gross_units_returned : Option Int
  gross_units_activated : Option Int
  net_units_sold : Option Int
  gross_sales_usd : Option F64
  gross_returns_usd : Option F64
  net_sales_usd : Option F64
  net_tax_usd : Option F64
  combined_discount_id : Option Int
  total_discount_percentage : Option F64
  additional_revenue_share_tier : Option Int
  key_request_id : Option Int
  viw_grant_partnerid : Option Int
deriving DecidableEq, Repr

/-- Errors of database/mod.rs DatabaseError, with the InvalidColumnType
value that save_sales raises on a missing record id. -/
inductive DatabaseErrorM
  | sqliteInvalidColumnType
  | sqliteConstraint
  | notInitialized
deriving DecidableEq, Repr

/-- Row written by one save_sales INSERT, following the VALUES parameter
list of database/sales.rs: package_id, gross_revenue, net_revenue and
currency take their unwrap_or defaults, api_key_id is the function argument,
and all remaining columns copy the record fields. -/
def rowOfRecord (i : String) (rec : SalesRecord) (apiKeyId : String) : SalesRow :=
  { id := i
  , date := rec.date
  , app_id := rec.app_id
  , app_name := rec.app_name
  , package_id := rec.packageid.getD 0
  , country_code := rec.country_code
  , units_sold := rec.units_sold
  , gross_revenue := rec.gross_sales_usd.getD f64Zero
  , net_revenue := rec.net_sales_usd.getD f64Zero
  , currency := rec.currency.getD "USD"
  , api_key_id := apiKeyId
  , line_item_type := some rec.line_item_type
  , partnerid := rec.partnerid
  , primary_appid := rec.primary_appid
  , bundleid := rec.bundleid
  , appid := rec.appid
  , game_item_id := rec.game_item_id
  , platform := rec.platform
  , base_price := rec.base_price
  , sale_price := rec.sale_price
  , avg_sale_price_usd := rec.avg_sale_price_usd
  , package_sale_type := rec.package_sale_type
  , gross_units_sold := rec.gross_units_sold
  , gross_units_returned := rec.gross_units_returned
  , gross_units_activated := rec.gross_units_activated
  , net_units_sold := rec.net_units_sold
  , gross_sales_usd := rec.gross_sales_usd
  , gross_returns_usd := rec.gross_returns_usd
  , net_sales_usd := rec.net_sales_usd
  , net_tax_usd := rec.net_tax_usd
  , combined_discount_id := rec.combined_discount_id
  , total_discount_percentage := rec.total_discount_percentage
  , additional_revenue_share_tier := rec.additional_revenue_share_tier
  , key_request_id := rec.key_request_id
  , viw_grant_partnerid := rec.viw_grant_partnerid }

/-- INSERT ... ON CONFLICT(id) DO UPDATE SET (all columns = excluded): when
a row with the id exists it is overwritten in place with the incoming
values, otherwise the new row is appended. -/
def upsertRow (table : List SalesRow) (r : SalesRow) : List SalesRow :=
  if table.any (fun t => t.id == r.id) then
    table.map (fun t => if t.id == r.id then r else t)
  else table ++ [r]

/-- Embedding of database/sales.rs save_sales: one transaction upserting the
batch in order; a record whose id is None aborts the whole transaction with
an InvalidColumnType error (the store is then unchanged, which the Except
error case represents). -/
def save_sales (table : List SalesRow) (data : List SalesRecord)
    (apiKeyId : String) : Except DatabaseErrorM (List SalesRow) :=
  match data with
  | [] => .ok table
  | rec :: rest =>
    match rec.id with
    | none => .error .sqliteInvalidColumnType
    | some i => save_sales (upsertRow table (rowOfRecord i rec apiKeyId)) rest apiKeyId

/-- Rows actually written by a batch: each record with its generated id
turned into its stored row. -/
def recordRows (data : List SalesRecord) (apiKeyId : String) : List SalesRow :=
  data.filterMap (fun rec => rec.id.map (fun i => rowOfRecord i rec apiKeyId))

/-- Last row of the list carrying the given id, if any: the value a sequence
of upserts leaves in the table for that id. -/
def lastWith : List SalesRow → String → Option SalesRow
  | [], _ => none
  | r :: rest, i =>
    match lastWith rest i with
    | some x => some x
    | none => if r.id == i then some r else none

/-- Value a row ends at after all upserts of the list: the last row of the
list with its id, or the row itself when the list never touches that id. -/
def overwriteBy (rows : List SalesRow) (t : SalesRow) : SalesRow :=
  (lastWith rows t.id).getD t

/-- Rows appended (rather than overwritten) by a sequence of upserts, given
the ids already present: one entry per first occurrence of a fresh id,
carrying the value of the last occurrence of that id. -/
def newRowsPart : List SalesRow → List String → List SalesRow
  | [], _ => []
  | r :: rest, seen =>
    if seen.contains r.id then newRowsPart rest seen
    else overwriteBy (r :: rest) r :: newRowsPart rest (r.id :: seen)

/-! ## Local Store: sync tasks and shared state (database/sync_tasks.rs) -/

/-- Embedding of one row of the sync_tasks table (types.rs SyncTask). -/
structure TaskRow where
  id : String
  api_key_id : String
  date : String
  status : String
  created_at : Int
  completed_at : Option Int
deriving DecidableEq, Repr

/-- Embedding of sync_tasks.rs create_task_id. -/
def create_task_id (apiKeyId date : String) : String :=
  apiKeyId ++ "|" ++ date

/-- Entry of the api_keys metadata table (types.rs ApiKeyInfo). -/
structure ApiKeyInfoM where
  id : String
  display_name : Option String
  key_hash : String
  created_at : Int
deriving DecidableEq, Repr

/-- The local store: sales facts, sync tasks, the key-value sync_meta table
(which holds the per-credential watermarks) and the credential metadata. -/
structure AppDb where
  sales : List SalesRow
  tasks : List TaskRow
  syncMeta : List (String × String)
  apiKeys : List ApiKeyInfoM
deriving DecidableEq, Repr

/-- SQL statements issued by create_sync_tasks, plus transaction markers so
that the presence or absence of a transaction is visible in the statement
trace (save_sales wraps its statements in begin/commit; create_sync_tasks
issues bare autocommit statements). -/
inductive SqlStmt
  | beginTx
  | commitTx
  | deleteSalesForDate (apiKeyId date : String)
  | insertOrReplaceTaskTodo (apiKeyId date : String) (now : Int)
deriving DecidableEq, Repr

/-- Statement trace of database/sync_tasks.rs create_sync_tasks: for each
date, a bare DELETE of the stored facts followed by a bare INSERT OR REPLACE
of the todo task — no transaction statements are issued. -/
def create_sync_tasks_stmts (apiKeyId : String) (dates : List String)
    (now : Int) : List SqlStmt :=
  dates.flatMap (fun date =>
    [ .deleteSalesForDate apiKeyId date
    , .insertOrReplaceTaskTodo apiKeyId date now ])

/-- Modelled from the spec wording of create_tasks (section 4.4): the same
two effects per date, but wrapped in one transaction per date. -/
def spec_create_tasks_stmts (apiKeyId : String) (dates : List String)
    (now : Int) : List SqlStmt :=
  dates.flatMap (fun date =>
    [ .beginTx
    , .deleteSalesForDate apiKeyId date
    , .insertOrReplaceTaskTodo apiKeyId date now
    , .commitTx ])

/-- Effect of one statement on the store.  INSERT OR REPLACE on the primary
key replaces any task row with the same id. -/
def applyStmt (s : AppDb) : SqlStmt → AppDb
  | .beginTx => s
  | .commitTx => s
  | .deleteSalesForDate k d =>
    { s with sales := s.sales.filter (fun r => !(r.api_key_id == k && r.date == d)) }
  | .insertOrReplaceTaskTodo k d now =>
    let tid := create_task_id k d
    { s with tasks := s.tasks.filter (fun t => !(t.id == tid)) ++
        [⟨tid, k, d, "todo", now, none⟩] }

/-- Sequential execution of a statement list.  Without transaction markers
every statement autocommits, so the state after each list element is a
committed, observable state. -/
def applyStmts (s : AppDb) (stmts : List SqlStmt) : AppDb :=
  stmts.foldl applyStmt s

/-- State reached by database/sync_tasks.rs create_sync_tasks. -/
def create_sync_tasks_run (s : AppDb) (apiKeyId : String) (dates : List String)
    (now : Int) : AppDb :=
  applyStmts s (create_sync_tasks_stmts apiKeyId dates now)

/-! ## Credential deletion (commands.rs delete_api_key, database/cleanup.rs) -/

/-- Embedding of database/cleanup.rs clear_data_for_key: deletes the sales
rows of the credential and its highwatermark sync_meta entry.  It does not
touch the sync_tasks table. -/
def clear_data_for_key (db : AppDb) (apiKeyId : String) : AppDb :=
  let db := { db with sales := db.sales.filter (fun r => !(r.api_key_id == apiKeyId)) }
  let wmKey := "highwatermark:" ++ apiKeyId
  { db with syncMeta := db.syncMeta.filter (fun p => !(p.1 == wmKey)) }

/-- Embedding of database/api_keys.rs delete_api_key_info. -/
def delete_api_key_info (db : AppDb) (apiKeyId : String) : AppDb :=
  { db with apiKeys := db.apiKeys.filter (fun k => !(k.id == apiKeyId)) }

/-- The vault contents: the decrypted identity-to-secret map. -/
abbrev VaultMap := List (String × String)

/-- Embedding of secure_storage.rs delete_api_key on the decrypted map:
HashMap::remove followed by rewriting the container. -/
def vault_delete (vault : VaultMap) (id : String) : VaultMap :=
  vault.filter (fun p => !(p.1 == id))

/-- Application state touched by credential deletion. -/
structure AppStateM where
  db : AppDb
  vault : VaultMap
deriving DecidableEq, Repr

/-- Embedding of commands.rs delete_api_key: first the store-side clear
(clear_data_for_key then delete_api_key_info), then the vault delete. -/
def delete_api_key_cmd (st : AppStateM) (id : String) : AppStateM :=
  let db := clear_data_for_key st.db id
  let db := delete_api_key_info db id
  { db := db, vault := vault_delete st.vault id }

/-- Watermark lookup as get_highwatermark reads it: the sync_meta value
under the namespaced key. -/
def lookupMeta (meta : List (String × String)) (key : String) : Option String :=
  (meta.find? (fun p => p.1 == key)).map (·.2)

/-- Vault secret lookup (secure_storage.rs get_api_key on the decrypted
map). -/
def vaultLookup (vault : VaultMap) (id : String) : Option String :=
  (vault.find? (fun p => p.1 == id)).map (·.2)

/-! ## Credential Vault cryptography (secure_storage.rs) -/

/-- Errors of secure_storage.rs StorageError. -/
inductive StorageErrorM
  | io (msg : String)
  | encryption (msg : String)
  | decryption (msg : String)
  | serialization (msg : String)
deriving DecidableEq, Repr

/-- Whether an error is the Decryption (Crypto) variant. -/
def StorageErrorM.isDecryption : StorageErrorM → Bool
  | .decryption _ => true
  | _ => false

/-- Interface of the aes_gcm library cipher: authenticated encryption and
decryption over key, nonce and bytes.  Decryption returns none when
authentication fails. -/
structure AeadCipher where
  enc : List Nat → List Nat → List Nat → List Nat
  dec : List Nat → List Nat → List Nat → Option (List Nat)

/-- Interface of the base64 library engine: encoding bytes to text and the
strict decoding that rejects malformed input. -/
structure B64Codec where
  enc : List Nat → String
  dec : String → Option (List Nat)

/-- Continuation byte of a UTF-8 multi-byte sequence. -/
def isContByte (b : Nat) : Bool :=
  decide (0x80 ≤ b ∧ b < 0xC0)

/-- Validator for UTF-8 byte sequences, the check String::from_utf8
performs: ASCII bytes stand alone; 2-, 3- and 4-byte sequences have the
standard lead-byte ranges, continuation bytes, and no overlong or surrogate
encodings. -/
def validUtf8 : List Nat → Bool
  | [] => true
  | b :: rest =>
    if b < 0x80 then validUtf8 rest
    else if 0xC2 ≤ b ∧ b < 0xE0 then
      decide (1 ≤ rest.length) && isContByte (rest.getD 0 0) &&
        validUtf8 (rest.drop 1)
    else if 0xE0 ≤ b ∧ b < 0xF0 then
      decide (2 ≤ rest.length) && isContByte (rest.getD 0 0) &&
        isContByte (rest.getD 1 0) &&
        decide (b ≠ 0xE0 ∨ 0xA0 ≤ rest.getD 0 0) &&
        decide (b ≠ 0xED ∨ rest.getD 0 0 < 0xA0) &&
        validUtf8 (rest.drop 2)
    else if 0xF0 ≤ b ∧ b < 0xF5 then
      decide (3 ≤ rest.length) && isContByte (rest.getD 0 0) &&
        isContByte (rest.getD 1 0) && isContByte (rest.getD 2 0) &&
        decide (b ≠ 0xF0 ∨ 0x90 ≤ rest.getD 0 0) &&
        decide (b ≠ 0xF4 ∨ rest.getD 0 0 < 0x90) &&
        validUtf8 (rest.drop 3)
    else false
termination_by l => l.length
decreasing_by
  all_goals simp [List.length_drop]
  all_goals omega

/-- Embedding of secure_storage.rs encrypt: the plaintext string's UTF-8
bytes are AEAD-encrypted under the key with a nonce (random in the source,
a parameter here), and base64(nonce concatenated with ciphertext) is the
stored unit. -/
def encryptM (c : AeadCipher) (b : B64Codec) (key nonce : List Nat)
    (plaintext : List Char) : String :=
  b.enc (nonce ++ c.enc key nonce (utf8Encode plaintext))

/-- Embedding of secure_storage.rs decrypt: base64-decode (failure is a
Decryption error), reject payloads shorter than the 12-byte nonce, split
nonce from ciphertext, AEAD-decrypt (authentication failure is a Decryption
error), and re-validate the plaintext as UTF-8 (String::from_utf8 failure is
a Decryption error).  The returned Rust String is represented by its UTF-8
byte content. -/
def decryptM (c : AeadCipher) (b : B64Codec) (key : List Nat)
    (encrypted : String) : Except StorageErrorM (List Nat) :=
  match b.dec encrypted with
  | none => .error (.decryption "base64")
  | some combined =>
    if combined.length < 12 then .error (.decryption "Invalid encrypted data")
    else
      match c.dec key (combined.take 12) (combined.drop 12) with
      | none => .error (.decryption "aead")
      | some plaintext =>
        if validUtf8 plaintext then .ok plaintext
        else .error (.decryption "utf8")

/-- Embedding of secure_storage.rs read_stored_keys: a missing container
file or one whose contents are empty after trimming yields the empty map;
otherwise the contents are decrypted and parsed as JSON (the serde_json
parser is a parameter; its failure is a Serialization error).  The decrypted
JSON text is handed to the parser as UTF-8 bytes. -/
def read_stored_keys (c : AeadCipher) (b : B64Codec) (key : List Nat)
    (jparse : List Nat → Option VaultMap) (file : Option String) :
    Except StorageErrorM VaultMap :=
  match file with
  | none => .ok []
  | some contents =>
    if contents.trim.isEmpty then .ok []
    else
      match decryptM c b key contents with
      | .error e => .error e
      | .ok jsonBytes =>
        match jparse jsonBytes with
        | none => .error (.serialization "json")
        | some keys => .ok keys

/-- Embedding of secure_storage.rs get_api_key: read the stored map and look
the identity up; an absent identity is Ok(None), never an error. -/
def get_api_key (c : AeadCipher) (b : B64Codec) (key : List Nat)
    (jparse : List Nat → Option VaultMap) (file : Option String) (id : String) :
    Except StorageErrorM (Option String) :=
  match read_stored_keys c b key jparse file with
  | .error e => .error e
  | .ok keys => .ok (vaultLookup keys id)

/-! ## Schema Migrator (database/migrations.rs) -/

/-- Row of the version-1/version-2 sales table.  The api_key_id field is
none while the column does not exist yet (before migrate_to_v2 adds it with
DEFAULT 'legacy'). -/
structure LegacyRow where
  rid : Int
  date : String
  app_id : Int
  app_name : Option String
  package_id : Int
  country_code : String
  units_sold : Int
  gross_revenue : F64
  net_revenue : F64
  currency : String
  api_key_id : Option String
deriving DecidableEq, Repr

/-- The pre-version-3 sales table with its column set. -/
structure LegacyTable where
  hasApiKeyId : Bool
  rows : List LegacyRow
deriving DecidableEq, Repr

/-- The sales table in either of its two shapes. -/
inductive SalesTable
  | legacy (t : LegacyTable)
  | v3 (rows : List SalesRow)
deriving DecidableEq, Repr

/-- Store state seen by the migrator: the persisted schema version (0 when
sync_meta has no entry), the sales table if it exists, and whether the
api_keys table exists. -/
structure MigStore where
  version : Nat
  salesTable : Option SalesTable
  apiKeysExists : Bool
deriving DecidableEq, Repr

/-- Legacy identity key synthesized by migrate_to_v3's INSERT..SELECT:
date || '|' || app_id || '|' || package_id || '|' || country_code || '|' ||
COALESCE(api_key_id, 'legacy'). -/
def legacyKey (r : LegacyRow) : String :=
  r.date ++ "|" ++ toString r.app_id ++ "|" ++ toString r.package_id ++ "|" ++
    r.country_code ++ "|" ++ r.api_key_id.getD "legacy"

/-- Version-3 row produced for a legacy row: the synthesized key, the ten
copied columns, and NULL for every column the legacy table lacks. -/
def legacyToV3 (r : LegacyRow) : SalesRow :=
  { id := legacyKey r
  , date := r.date
  , app_id := r.app_id
  , app_name := r.app_name
  , package_id := r.package_id
  , country_code := r.country_code
  , units_sold := r.units_sold
  , gross_revenue := r.gross_revenue
  , net_revenue := r.net_revenue
  , currency := r.currency
  , api_key_id := r.api_key_id.getD "legacy"
  , line_item_type := none
  , partnerid := none
  , primary_appid := none
  , bundleid := none
  , appid := none
  , game_item_id := none
  , platform := none
  , base_price := none
  , sale_price := none
  , avg_sale_price_usd := none
  , package_sale_type := none
  , gross_units_sold := none
  , gross_units_returned := none
  , gross_units_activated := none
  , net_units_sold := none
  , gross_sales_usd := none
  , gross_returns_usd := none
  , net_sales_usd := none
  , net_tax_usd := none
  , combined_discount_id := none
  , total_discount_percentage := none
  , additional_revenue_share_tier := none
  , key_request_id := none
  , viw_grant_partnerid := none }

/-- Embedding of migrate_to_v1: CREATE TABLE IF NOT EXISTS sales in the
version-1 shape (a fresh empty legacy table when none exists), then record
version 1. -/
def migrate_to_v1 (s : MigStore) : MigStore :=
  let s := match s.salesTable with
    | none => { s with salesTable := some (.legacy ⟨false, []⟩) }
    | some _ => s
  { s with version := 1 }

/-- Embedding of migrate_to_v2: ensure the api_keys table, and when the
sales table lacks the api_key_id column, add it with DEFAULT 'legacy' for
every existing row (the subsequent copy into sales_new and rename preserve
the row contents), then record version 2. -/
def migrate_to_v2 (s : MigStore) : MigStore :=
  let s := { s with apiKeysExists := true }
  let s := match s.salesTable with
    | some (.legacy t) =>
      if t.hasApiKeyId then s
      else
        let newRows := t.rows.map (fun r : LegacyRow => { r with api_key_id := some "legacy" })
        { s with salesTable := some (.legacy { hasApiKeyId := true, rows := newRows }) }
    | _ => s
  { s with version := 2 }

/-- Embedding of migrate_to_v3: create the version-3 table, copy every
legacy row with its synthesized key as the new TEXT primary key, drop the
old table and rename.  A duplicate synthesized key would violate the new
primary key and abort the INSERT, modelled as a constraint error; the SELECT
fails when no sales table exists.  Version 3 is recorded on success. -/
def migrate_to_v3 (s : MigStore) : Except DatabaseErrorM MigStore :=
  match s.salesTable with
  | some (.legacy t) =>
    if ((t.rows.map legacyToV3).map SalesRow.id).Nodup then
      .ok { s with salesTable := some (.v3 (t.rows.map legacyToV3)), version := 3 }
    else .error .sqliteConstraint
  | some (.v3 rows) =>
    -- re-running on a v3-shaped table re-synthesizes keys from the copied
    -- columns, exactly as the INSERT..SELECT would
    if (((rows.map (fun r =>
        { r with id := r.date ++ "|" ++ toString r.app_id ++ "|" ++
            toString r.package_id ++ "|" ++ r.country_code ++ "|" ++
            r.api_key_id })).map SalesRow.id)).Nodup then
      .ok { s with salesTable := some (.v3 (rows.map (fun r =>
        { r with id := r.date ++ "|" ++ toString r.app_id ++ "|" ++
            toString r.package_id ++ "|" ++ r.country_code ++ "|" ++
            r.api_key_id }))), version := 3 }
    else .error .sqliteConstraint
  | none => .error .notInitialized

/-- Embedding of migrations.rs init_schema: the schema version is read once
and each migration runs when that originally read version is below its
target. -/
def init_schema (s : MigStore) : Except DatabaseErrorM MigStore :=
  let v := s.version
  let s := if v < 1 then migrate_to_v1 s else s
  let s := if v < 2 then migrate_to_v2 s else s
  if v < 3 then migrate_to_v3 s else .ok s

/-! ## Task-queue operations and startup ordering (sync_tasks.rs) -/

/-- Embedding of sync_tasks.rs reset_in_progress_tasks: every in_progress
task becomes todo; the returned count is the number of rows changed. -/
def reset_in_progress_tasks (tasks : List TaskRow) : List TaskRow × Int :=
  ( tasks.map (fun t => if t.status == "in_progress" then { t with status := "todo" } else t)
  , ((tasks.filter (fun t => t.status == "in_progress")).length : Int) )

/-- Insertion by ascending date, giving the ORDER BY date ASC of
get_pending_tasks. -/
def insertByDate (t : TaskRow) : List TaskRow → List TaskRow
  | [] => [t]
  | u :: rest => if t.date ≤ u.date then t :: u :: rest else u :: insertByDate t rest

/-- Sort by ascending date. -/
def sortByDate (l : List TaskRow) : List TaskRow :=
  l.foldr insertByDate []

/-- Embedding of sync_tasks.rs get_pending_tasks: tasks whose status is todo
or in_progress, ordered by ascending date. -/
def get_pending_tasks (tasks : List TaskRow) : List TaskRow :=
  sortByDate (tasks.filter (fun t => t.status == "todo" || t.status == "in_progress"))

/-- Unit of work the orchestrator queues at startup. -/
inductive WorkItem
  | resume (taskId : String)
  | discover (apiKeyId : String)
deriving DecidableEq, Repr

/-- Modelled from the spec: the Sync Orchestrator's startup sequence
(sections 4.6 step 2 and 5) is driven by the frontend and is not part of the
Rust sources; on process start it calls reset_stuck, consults pending, and
processes those tasks before queuing new discovery work for any
credential. -/
def orchestrator_startup (tasks : List TaskRow) (credentials : List String) :
    List WorkItem :=
  let tasksAfterReset := (reset_in_progress_tasks tasks).1
  (get_pending_tasks tasksAfterReset).map (fun t => .resume t.id) ++
    credentials.map .discover

/-! ## Discovery response handling (steam_api.rs fetch_sales_data) -/

/-- Relevant shapes of the serde_json value carried by
result_highwatermark; a number is kept as its as_i64 view (some integer when
representable, none for other numbers). -/
inductive JsonValueM
  | str (s : String)
  | num (asI64 : Option Int)
  | nullVal
  | boolVal (b : Bool)
  | arrVal
  | objVal
deriving DecidableEq, Repr

/-- Embedding of types.rs SteamChangedDatesInner. -/
structure ChangedDatesInner where
  dates : List String
  result_highwatermark : Option JsonValueM
deriving DecidableEq, Repr

/-- Embedding of the new_highwatermark match in fetch_sales_data: a JSON
string is parsed as i64 falling back to the stored value, a JSON number uses
as_i64 falling back to the stored value, anything else keeps the stored
value. -/
def computeNewHwm (rhw : Option JsonValueM) (stored : Int) : Int :=
  match rhw with
  | some (.str s) => (parseI64 s).getD stored
  | some (.num n) => n.getD stored
  | _ => stored

/-- Embedding of the FetchResult the command returns. -/
structure FetchResultM where
  sales : List SalesRecord
  new_highwatermark : Int
  record_count : Option Int
deriving DecidableEq, Repr

/-- Comparator of the date sort in fetch_sales_data: dates already present
locally order after absent ones, ties break by ascending date. -/
def datePriorityLE (existing : List String) (a bDate : String) : Bool :=
  match existing.contains a, existing.contains bDate with
  | true, false => false
  | false, true => true
  | _, _ => a ≤ bDate

/-- Insertion sort by the date priority comparator. -/
def insertByPriority (existing : List String) (d : String) :
    List String → List String
  | [] => [d]
  | e :: rest =>
    if datePriorityLE existing d e then d :: e :: rest
    else e :: insertByPriority existing d rest

/-- Sorted date list of fetch_sales_data. -/
def sortDatesByPriority (existing : List String) (dates : List String) :
    List String :=
  dates.foldr (insertByPriority existing) []

/-- Chunks of at most n elements (PARALLEL_BATCH_SIZE batching). -/
def chunksOf (n : Nat) : List String → List (List String)
  | [] => []
  | l => if h : l.length ≤ n ∨ n = 0 then [l]
    else
      have : (List.drop n l).length < l.length := by
        rcases l with _ | ⟨a, l⟩
        · simp at h
        · have hn : 0 < n := Nat.pos_of_ne_zero (by tauto)
          simp [List.length_drop]
          omega
      l.take n :: chunksOf n (l.drop n)
termination_by l => l.length

/-- Embedding of the body of fetch_sales_data after discovery, as a pure
plan: given the per-date fetch results (a parameter standing for
fetch_sales_per-date over the network), which dates are fetched in order,
the batches handed to save_batch, and the FetchResult.  When the discovery
response carries no dates the function returns before any detail fetch. -/
def fetch_sales_data_plan (fetchFn : String → List SalesRecord)
    (resp : ChangedDatesInner) (stored : Int) (existing : List String) :
    FetchResultM × List String × List (List SalesRecord) :=
  let newHwm := computeNewHwm resp.result_highwatermark stored
  if resp.dates.isEmpty then
    ({ sales := [], new_highwatermark := newHwm, record_count := some 0 }, [], [])
  else
    let sorted := sortDatesByPriority existing resp.dates
    let chunks := chunksOf 3 sorted
    let batches := (chunks.map (fun c => c.flatMap fetchFn)).filter
      (fun b => !b.isEmpty)
    let total : Int := (chunks.map (fun c => ((c.flatMap fetchFn).length : Int))).sum
    ({ sales := [], new_highwatermark := newHwm, record_count := some total },
      sorted, batches)

/-! ## Concrete library instances used by witnesses -/

/-- Concrete AEAD instance satisfying the cipher round-trip contract at any
payload: the ciphertext is the plaintext with a tag byte appended, and
decryption authenticates the tag. -/
def tagCipher : AeadCipher where
  enc := fun _ _ pt => pt ++ [7]
  dec := fun _ _ ct => if ct.getLast? == some 7 then some ct.dropLast else none

/-- Concrete byte-to-text codec satisfying the base64 engine round-trip
contract at any payload: one character per byte. -/
def charCodec : B64Codec where
  enc := fun bs => String.mk (bs.map Char.ofNat)
  dec := fun s => some (s.data.map Char.toNat)

/-! ## Concrete sample states used in concrete executions -/

/-- A sales record as fetched from the remote API, carrying its generated
identity key. -/
def sampleRecord : SalesRecord :=
  { id := some "x", api_key_id := "A", date := "2024-01-01"
  , line_item_type := "Package", partnerid := none, primary_appid := none
  , packageid := none, bundleid := none, appid := none, game_item_id := none
  , country_code := "US", platform := none, currency := none
  , base_price := none, sale_price := none, avg_sale_price_usd := none
  , package_sale_type := none, gross_units_sold := none
  , gross_units_returned := none, gross_units_activated := none
  , net_units_sold := none, gross_sales_usd := none, gross_returns_usd := none
  , net_sales_usd := none, net_tax_usd := none, combined_discount_id := none
  , total_discount_percentage := none, additional_revenue_share_tier := none
  , key_request_id := none, viw_grant_partnerid := none, app_name := none
  , package_name := none, bundle_name := none, partner_name := none
  , country_name := none, region := none, game_item_description := none
  , game_item_category := none, key_request_notes := none
  , game_code_description := none, combined_discount_name := none
  , app_id := 10, units_sold := 1 }

/-- A committed sales fact for credential "A" on 2024-01-01. -/
def sampleRow : SalesRow :=
  { id := "k", date := "2024-01-01", app_id := 10, app_name := none
  , package_id := 0, country_code := "US", units_sold := 1, gross_revenue := 0
  , net_revenue := 0, currency := "USD", api_key_id := "A"
  , line_item_type := some "Package", partnerid := none, primary_appid := none
  , bundleid := none, appid := none, game_item_id := none, platform := none
  , base_price := none, sale_price := none, avg_sale_price_usd := none
  , package_sale_type := none, gross_units_sold := none
  , gross_units_returned := none, gross_units_activated := none
  , net_units_sold := none, gross_sales_usd := none, gross_returns_usd := none
  , net_sales_usd := none, net_tax_usd := none, combined_discount_id := none
  , total_discount_percentage := none, additional_revenue_share_tier := none
  , key_request_id := none, viw_grant_partnerid := none }

/-- A store holding one committed fact, one completed task, a watermark and
credential metadata, all for credential "A". -/
def sampleDb : AppDb :=
  { sales := [sampleRow]
  , tasks := [⟨create_task_id "A" "2024-01-01", "A", "2024-01-01", "done", 0, some 5⟩]
  , syncMeta := [("highwatermark:A", "42")]
  , apiKeys := [⟨"A", none, "beef", 0⟩] }

/-- A version-0 store with one pre-versioning sales row. -/
def sampleMigStore : MigStore :=
  { version := 0
  , salesTable := some (.legacy
      { hasApiKeyId := false
      , rows := [⟨1, "2024-01-01", 10, none, 20, "US", 1, 0, 0, "USD", none⟩] })
  , apiKeysExists := false }

/-- The store sampleMigStore migrates to: version 3, the row carried over
under its synthesized legacy key. -/
def sampleMigStoreV3 : MigStore :=
  { version := 3
  , salesTable := some (.v3
      [{ id := "2024-01-01|10|20|US|legacy", date := "2024-01-01", app_id := 10
       , app_name := none, package_id := 20, country_code := "US"
       , units_sold := 1, gross_revenue := 0, net_revenue := 0
       , currency := "USD", api_key_id := "legacy", line_item_type := none
       , partnerid := none, primary_appid := none, bundleid := none
       , appid := none, game_item_id := none, platform := none
       , base_price := none, sale_price := none, avg_sale_price_usd := none
       , package_sale_type := none, gross_units_sold := none
       , gross_units_returned := none, gross_units_activated := none
       , net_units_sold := none, gross_sales_usd := none
       , gross_returns_usd := none, net_sales_usd := none, net_tax_usd := none
       , combined_discount_id := none, total_discount_percentage := none
       , additional_revenue_share_tier := none, key_request_id := none
       , viw_grant_partnerid := none }])
  , apiKeysExists := true }

/-! # Theorems -/

/-- C4: For every sales record, the identity key function is a
deterministic, pure, total function equal to the projection that
concatenates, in this exact order, partner id, date, line-item type,
platform, country, currency, credential id, package id, bundle id,
package-sale-type, key-request id, base price, sale price, app id,
game-item id, and combined-discount id, joined with the '|' delimiter, each
absent optional field contributing an empty placeholder at its fixed
position and each present field its canonical string form. -/
theorem C4_generate_unique_key_matches_spec (r : SalesRecord) :
    generate_unique_key r = identity_key_spec r := by
  simp [generate_unique_key, identity_key_spec, joinWithBar,
    String.append_assoc, String.empty_append]

/-- A string of ASCII characters encodes to its character codes, one byte
per character. -/
theorem utf8Encode_ascii (s : List Char) (h : ∀ c ∈ s, c.toNat < 128) :
    utf8Encode s = s.map Char.toNat := by
  induction s with
  | nil => rfl
  | cons c cs ih =>
    have hc : c.toNat < 128 := h c (List.mem_cons_self c cs)
    have hcs : ∀ x ∈ cs, x.toNat < 128 := fun x hx => h x (List.mem_cons_of_mem c hx)
    simp [utf8Encode, utf8EncodeChar, hc]
    simpa [utf8Encode] using ih hcs

/-- C10 counterexample: on the four-character secret "aaaé" the stored
fingerprint is the last four UTF-8 bytes, the three characters "aaé", while
the claim's last-four-characters rule demands the whole secret "aaaé". -/
theorem C10_counterexample :
    key_hash_of_bytes (utf8Encode ['a', 'a', 'a', 'é']) ≠
      some (utf8Encode (keyHashCharsSpec ['a', 'a', 'a', 'é'])) := by
  decide

/-- C10 (amended): the fingerprint stored by add_api_key is computed on the
UTF-8 bytes of the secret — the last four bytes when the encoding has at
least four bytes, the entire secret otherwise; hence for secrets made of
ASCII characters it equals the last four characters when the secret has at
least four characters and the entire secret (persisted outside the
encrypted vault) when shorter. -/
theorem C10_key_hash_ascii (s : List Char) (h : ∀ c ∈ s, c.toNat < 128) :
    key_hash_of_bytes (utf8Encode s) = some (utf8Encode (keyHashCharsSpec s)) := by
  have henc : utf8Encode s = s.map Char.toNat := utf8Encode_ascii s h
  by_cases hlen : 4 ≤ s.length
  · have hlen' : 4 ≤ (utf8Encode s).length := by simp [henc]; omega
    have hidx : (utf8Encode s).length - 4 = s.length - 4 := by simp [henc]
    have hbound : isCharBoundary (utf8Encode s) ((utf8Encode s).length - 4) = true := by
      by_cases h0 : s.length - 4 = 0
      · simp [isCharBoundary, hidx, h0]
      · have hi : s.length - 4 < s.length := by omega
        have hgd : (utf8Encode s).getD (s.length - 4) 0 =
            (s.get ⟨s.length - 4, hi⟩).toNat := by
          rw [henc]
          rw [List.getD_eq_getElem _ _ (by simpa using hi)]
          simp [List.get_eq_getElem]
        have hlt : (s.get ⟨s.length - 4, hi⟩).toNat < 128 :=
          h _ (List.get_mem s (s.length - 4) hi)
        simp only [isCharBoundary, hidx, hgd]
        have hne2 : (s.get ⟨s.length - 4, hi⟩).toNat / 64 ≠ 2 := by omega
        simp only [List.get_eq_getElem] at hne2
        simp [h0, hne2]
    have hspec : keyHashCharsSpec s = s.drop (s.length - 4) := by
      simp [keyHashCharsSpec, hlen]
    have hdropmem : ∀ c ∈ s.drop (s.length - 4), c.toNat < 128 :=
      fun c hc => h c (List.mem_of_mem_drop hc)
    rw [key_hash_of_bytes, if_pos hlen', if_pos hbound, hidx, hspec,
      utf8Encode_ascii _ hdropmem, henc, ← List.map_drop]
  · have hlen' : ¬ 4 ≤ (utf8Encode s).length := by simp [henc]; omega
    simp [key_hash_of_bytes, hlen', keyHashCharsSpec, hlen]

/-- C10 amended-theorem witness at the ASCII secret "abcde": the stored
fingerprint is "bcde". -/
theorem C10_key_hash_ascii_witness :
    key_hash_of_bytes (utf8Encode ['a', 'b', 'c', 'd', 'e']) =
      some (utf8Encode (keyHashCharsSpec ['a', 'b', 'c', 'd', 'e'])) :=
  C10_key_hash_ascii ['a', 'b', 'c', 'd', 'e'] (by decide)

/-- Unicode scalar value bounds of a character: below the surrogate range
or strictly between it and 0x110000. -/
theorem char_scalar_bounds (c : Char) :
    c.toNat < 0xD800 ∨ (0xDFFF < c.toNat ∧ c.toNat < 0x110000) := by
  have h := c.valid
  simp only [UInt32.isValidChar, Nat.isValidChar] at h
  exact h

/-- The UTF-8 encoding of one character followed by any bytes is valid
exactly when the remaining bytes are. -/
theorem validUtf8_encodeChar_append (c : Char) (rest : List Nat) :
    validUtf8 (utf8EncodeChar c ++ rest) = validUtf8 rest := by
  have hv := char_scalar_bounds c
  unfold utf8EncodeChar
  by_cases h1 : c.toNat < 0x80
  · rw [if_pos h1]
    show validUtf8 (c.toNat :: rest) = validUtf8 rest
    rw [validUtf8]
    rw [if_pos h1]
  · by_cases h2 : c.toNat < 0x800
    · have b1 : ¬ (0xC0 + c.toNat / 0x40 < 0x80) := by omega
      have b2 : 0xC2 ≤ 0xC0 + c.toNat / 0x40 ∧ 0xC0 + c.toNat / 0x40 < 0xE0 := by
        omega
      have b3 : 0x80 ≤ 0x80 + c.toNat % 0x40 ∧ 0x80 + c.toNat % 0x40 < 0xC0 := by
        omega
      rw [if_neg h1, if_pos h2]
      show validUtf8 ((0xC0 + c.toNat / 0x40) :: (0x80 + c.toNat % 0x40) :: rest) =
        validUtf8 rest
      rw [validUtf8]
      rw [if_neg b1, if_pos b2]
      simp [isContByte]
      intro _
      omega
    · by_cases h3 : c.toNat < 0x10000
      · have f1 : ¬ (0xE0 + c.toNat / 0x1000 < 0x80) := by omega
        have f2 : ¬ (0xC2 ≤ 0xE0 + c.toNat / 0x1000 ∧
            0xE0 + c.toNat / 0x1000 < 0xE0) := by omega
        have f3 : 0xE0 ≤ 0xE0 + c.toNat / 0x1000 ∧
            0xE0 + c.toNat / 0x1000 < 0xF0 := by omega
        have f4 : 0x80 ≤ 0x80 + c.toNat / 0x40 % 0x40 ∧
            0x80 + c.toNat / 0x40 % 0x40 < 0xC0 := by omega
        have f5 : 0x80 ≤ 0x80 + c.toNat % 0x40 ∧
            0x80 + c.toNat % 0x40 < 0xC0 := by omega
        have f6 : 0xE0 + c.toNat / 0x1000 ≠ 0xE0 ∨
            0xA0 ≤ 0x80 + c.toNat / 0x40 % 0x40 := by omega
        have f7 : 0xE0 + c.toNat / 0x1000 ≠ 0xED ∨
            0x80 + c.toNat / 0x40 % 0x40 < 0xA0 := by omega
        rw [if_neg h1, if_neg h2, if_pos h3]
        show validUtf8 ((0xE0 + c.toNat / 0x1000) :: (0x80 + c.toNat / 0x40 % 0x40) ::
          (0x80 + c.toNat % 0x40) :: rest) = validUtf8 rest
        rw [validUtf8]
        rw [if_neg f1, if_neg f2, if_pos f3]
        simp [isContByte]
        intro _
        omega
      · have g0 : c.toNat < 0x110000 := by omega
        have g1 : ¬ (0xF0 + c.toNat / 0x40000 < 0x80) := by omega
        have g2 : ¬ (0xC2 ≤ 0xF0 + c.toNat / 0x40000 ∧
            0xF0 + c.toNat / 0x40000 < 0xE0) := by omega
        have g3 : ¬ (0xE0 ≤ 0xF0 + c.toNat / 0x40000 ∧
            0xF0 + c.toNat / 0x40000 < 0xF0) := by omega
        have g4 : 0xF0 ≤ 0xF0 + c.toNat / 0x40000 ∧
            0xF0 + c.toNat / 0x40000 < 0xF5 := by omega
        have g5 : 0x80 ≤ 0x80 + c.toNat / 0x1000 % 0x40 ∧
            0x80 + c.toNat / 0x1000 % 0x40 < 0xC0 := by omega
        have g6 : 0x80 ≤ 0x80 + c.toNat / 0x40 % 0x40 ∧
            0x80 + c.toNat / 0x40 % 0x40 < 0xC0 := by omega
        have g7 : 0x80 ≤ 0x80 + c.toNat % 0x40 ∧
            0x80 + c.toNat % 0x40 < 0xC0 := by omega
        have g8 : 0xF0 + c.toNat / 0x40000 ≠ 0xF0 ∨
            0x90 ≤ 0x80 + c.toNat / 0x1000 % 0x40 := by omega
        have g9 : 0xF0 + c.toNat / 0x40000 ≠ 0xF4 ∨
            0x80 + c.toNat / 0x1000 % 0x40 < 0x90 := by omega
        rw [if_neg h1, if_neg h2, if_neg h3]
        show validUtf8 ((0xF0 + c.toNat / 0x40000) :: (0x80 + c.toNat / 0x1000 % 0x40) ::
          (0x80 + c.toNat / 0x40 % 0x40) :: (0x80 + c.toNat % 0x40) :: rest) =
          validUtf8 rest
        rw [validUtf8]
        rw [if_neg g1, if_neg g2, if_neg g3, if_pos g4]
        simp [isContByte]
        intro _
        omega

/-- Every encoded string passes the UTF-8 validation performed by
String::from_utf8. -/
theorem validUtf8_utf8Encode (s : List Char) : validUtf8 (utf8Encode s) = true := by
  induction s with
  | nil =>
    rw [show utf8Encode [] = [] from rfl]
    rw [validUtf8]
  | cons c cs ih =>
    have : utf8Encode (c :: cs) = utf8EncodeChar c ++ utf8Encode cs := by
      simp [utf8Encode]
    rw [this, validUtf8_encodeChar_append, ih]

/-- C5: decrypt(encrypt(s)) returns s for every string s (including the
empty string and strings with delimiter characters), under the same key and
for any nonce, whenever the base64 engine and the AEAD cipher satisfy their
round-trip contracts on this payload; and every failure — a blob that is not
valid base64, a decoded payload shorter than the 12-byte nonce, or a
ciphertext failing authentication — surfaces as the Decryption (Crypto)
error variant, never as a silent success and never as the absent-secret
outcome. -/
theorem C5_encrypt_decrypt_roundtrip (c : AeadCipher) (b : B64Codec)
    (key nonce : List Nat) (s : List Char) (blob : String)
    (hnonce : nonce.length = 12)
    (hb : b.dec (b.enc (nonce ++ c.enc key nonce (utf8Encode s))) =
      some (nonce ++ c.enc key nonce (utf8Encode s)))
    (hc : c.dec key nonce (c.enc key nonce (utf8Encode s)) =
      some (utf8Encode s)) :
    decryptM c b key (encryptM c b key nonce s) = .ok (utf8Encode s) ∧
    (b.dec blob = none →
      decryptM c b key blob = .error (.decryption "base64")) ∧
    (∀ combined, b.dec blob = some combined → combined.length < 12 →
      decryptM c b key blob = .error (.decryption "Invalid encrypted data")) ∧
    (∀ combined, b.dec blob = some combined → 12 ≤ combined.length →
      c.dec key (combined.take 12) (combined.drop 12) = none →
      decryptM c b key blob = .error (.decryption "aead")) ∧
    (∀ e, decryptM c b key blob = .error e → e.isDecryption = true) := by
  refine ⟨?_, ?_, ?_, ?_, ?_⟩
  · have hlen : ¬ (nonce ++ c.enc key nonce (utf8Encode s)).length < 12 := by
      simp [List.length_append, hnonce]
    have htake : (nonce ++ c.enc key nonce (utf8Encode s)).take 12 = nonce := by
      rw [← hnonce]
      exact List.take_left nonce _
    have hdrop : (nonce ++ c.enc key nonce (utf8Encode s)).drop 12 =
        c.enc key nonce (utf8Encode s) := by
      rw [← hnonce]
      exact List.drop_left nonce _
    simp only [encryptM, decryptM, hb, if_neg hlen, htake, hdrop, hc,
      validUtf8_utf8Encode, if_pos]
  · intro h
    simp only [decryptM, h]
  · intro combined h hlt
    simp only [decryptM, h, if_pos hlt]
  · intro combined h hge hdec
    have hnl : ¬ combined.length < 12 := by omega
    simp only [decryptM, h, if_neg hnl, hdec]
  · intro e h
    unfold decryptM at h
    split at h
    · cases h
      rfl
    · split at h
      · cases h
        rfl
      · split at h
        · cases h
          rfl
        · split at h
          · cases h
          · cases h
            rfl

/-- C5 witness at the delimiter-containing string "a|b" with the concrete
tag cipher and per-byte codec: the round trip returns the plaintext. -/
theorem C5_encrypt_decrypt_roundtrip_witness :
    decryptM tagCipher charCodec [1]
      (encryptM tagCipher charCodec [1] (List.replicate 12 0) ['a', '|', 'b']) =
      .ok (utf8Encode ['a', '|', 'b']) :=
  (C5_encrypt_decrypt_roundtrip tagCipher charCodec [1] (List.replicate 12 0)
    ['a', '|', 'b'] "x" (by decide) (by decide) (by decide)).1

/-- Every error decryptM produces is the Decryption variant. -/
theorem decryptM_error_variant (c : AeadCipher) (b : B64Codec) (key : List Nat)
    (blob : String) (e : StorageErrorM) (h : decryptM c b key blob = .error e) :
    e.isDecryption = true := by
  unfold decryptM at h
  split at h
  · cases h
    rfl
  · split at h
    · cases h
      rfl
    · split at h
      · cases h
        rfl
      · split at h
        · cases h
        · cases h
          rfl

/-- C9: For every identity, reading a secret from the vault when the
encrypted container file does not exist, or exists but is empty or
whitespace-only, succeeds with None (an empty key map) rather than an IO or
Decryption error; an error arises only from a present, non-empty container
failing base64 decoding or decryption (a Decryption error) or JSON parsing
(a Serialization error). -/
theorem C9_vault_read_missing_or_blank (c : AeadCipher) (b : B64Codec)
    (key : List Nat) (jparse : List Nat → Option VaultMap) (file : Option String)
    (id : String) :
    (file = none → get_api_key c b key jparse file id = .ok none) ∧
    (∀ contents, file = some contents → contents.trim.isEmpty = true →
      get_api_key c b key jparse file id = .ok none) ∧
    (∀ e, get_api_key c b key jparse file id = .error e →
      ∃ contents, file = some contents ∧ contents.trim.isEmpty = false ∧
        (e.isDecryption = true ∨
          ∃ jsonBytes, decryptM c b key contents = .ok jsonBytes ∧
            jparse jsonBytes = none ∧ e = .serialization "json")) := by
  refine ⟨?_, ?_, ?_⟩
  · intro h
    subst h
    rfl
  · intro contents h ht
    subst h
    simp [get_api_key, read_stored_keys, ht, vaultLookup]
  · intro e h
    cases file with
    | none => simp [get_api_key, read_stored_keys] at h
    | some contents =>
      by_cases ht : contents.trim.isEmpty
      · simp [get_api_key, read_stored_keys, ht] at h
      · refine ⟨contents, rfl, by simpa using ht, ?_⟩
        rcases hd : decryptM c b key contents with e' | jsonBytes
        · left
          have he : e = e' := by
            simp [get_api_key, read_stored_keys, ht, hd] at h
            exact h.symm
          rw [he]
          exact decryptM_error_variant c b key contents e' hd
        · right
          rcases hj : jparse jsonBytes with _ | keys
          · refine ⟨jsonBytes, rfl, hj, ?_⟩
            simp [get_api_key, read_stored_keys, ht, hd, hj] at h
            exact h.symm
          · simp [get_api_key, read_stored_keys, ht, hd, hj] at h

/-- C9 witness: with a missing container file, get_api_key succeeds with
None for the identity "A". -/
theorem C9_vault_read_missing_witness :
    get_api_key tagCipher charCodec [1] (fun _ => none) none "A" = .ok none :=
  (C9_vault_read_missing_or_blank tagCipher charCodec [1] (fun _ => none)
    none "A").1 rfl

/-- C8: For every discovery response whose changed-date list is empty, the
fetch operation performs no detail fetches and hands nothing to save_batch,
returning immediately with record count zero and a new watermark computed
from the server value — parsed from a JSON string, taken from a JSON number
via as_i64, and falling back to the previously stored watermark whenever no
parseable value is present. -/
theorem C8_fetch_empty_dates (fetchFn : String → List SalesRecord)
    (resp : ChangedDatesInner) (stored : Int) (existing : List String)
    (h : resp.dates = []) :
    fetch_sales_data_plan fetchFn resp stored existing =
      ({ sales := []
       , new_highwatermark := computeNewHwm resp.result_highwatermark stored
       , record_count := some 0 }, [], []) ∧
    (∀ s n, resp.result_highwatermark = some (.str s) → parseI64 s = some n →
      computeNewHwm resp.result_highwatermark stored = n) ∧
    (∀ s, resp.result_highwatermark = some (.str s) → parseI64 s = none →
      computeNewHwm resp.result_highwatermark stored = stored) ∧
    (∀ n, resp.result_highwatermark = some (.num (some n)) →
      computeNewHwm resp.result_highwatermark stored = n) ∧
    (resp.result_highwatermark = some (.num none) →
      computeNewHwm resp.result_highwatermark stored = stored) ∧
    (resp.result_highwatermark = none →
      computeNewHwm resp.result_highwatermark stored = stored) := by
  refine ⟨?_, ?_, ?_, ?_, ?_, ?_⟩
  · simp [fetch_sales_data_plan, h]
  · intro s n hs hp
    simp [computeNewHwm, hs, hp]
  · intro s hs hp
    simp [computeNewHwm, hs, hp]
  · intro n hn
    simp [computeNewHwm, hn]
  · intro hn
    simp [computeNewHwm, hn]
  · intro hn
    simp [computeNewHwm, hn]

/-- C8 witness: an empty date list with server watermark "100" (a JSON
string) and stored watermark 7 yields no fetches and watermark 100. -/
theorem C8_fetch_empty_dates_witness :
    fetch_sales_data_plan (fun _ => []) ⟨[], some (.str "100")⟩ 7 [] =
      ({ sales := [], new_highwatermark := 100, record_count := some 0 }, [], []) :=
  ((C8_fetch_empty_dates (fun _ => []) ⟨[], some (.str "100")⟩ 7 [] rfl).1).trans
    (by decide)

/-- Filtering by a predicate after keeping only its complement yields
nothing. -/
theorem filter_not_then_filter {α : Type} (l : List α) (p : α → Bool) :
    (l.filter (fun x => !(p x))).filter p = [] := by
  induction l with
  | nil => rfl
  | cons a l ih =>
    by_cases h : p a = true
    · simp [List.filter_cons, h, ih]
    · simp [List.filter_cons, h, ih]

/-- find? by a predicate after keeping only its complement yields nothing. -/
theorem find?_filter_not {α : Type} (l : List α) (p : α → Bool) :
    (l.filter (fun x => !(p x))).find? p = none := by
  rw [List.find?_eq_none]
  intro x hx
  have hm := List.mem_filter.mp hx
  simpa using hm.2

/-- No statement issued by any SQL trace ever adds a sales row: the final
sales rows all come from the initial state. -/
theorem sales_subset_applyStmt (s : AppDb) (stmt : SqlStmt) :
    ∀ r ∈ (applyStmt s stmt).sales, r ∈ s.sales := by
  intro r hr
  cases stmt with
  | beginTx => exact hr
  | commitTx => exact hr
  | deleteSalesForDate k d =>
    simp only [applyStmt] at hr
    exact List.mem_of_mem_filter hr
  | insertOrReplaceTaskTodo k d now => exact hr

/-- Statement traces never add sales rows. -/
theorem sales_subset_applyStmts (stmts : List SqlStmt) :
    ∀ (s : AppDb), ∀ r ∈ (applyStmts s stmts).sales, r ∈ s.sales := by
  induction stmts with
  | nil => intro s r hr; exact hr
  | cons a rest ih =>
    intro s r hr
    exact sales_subset_applyStmt s a r (ih (applyStmt s a) r hr)

/-- A todo task with some id survives any further statement: deletes touch
only sales, and INSERT OR REPLACE either keeps it or replaces it with a
fresh todo task under the same id. -/
theorem todo_task_pres_applyStmt (s : AppDb) (stmt : SqlStmt) (tid : String)
    (h : ∃ t ∈ s.tasks, t.id = tid ∧ t.status = "todo") :
    ∃ t ∈ (applyStmt s stmt).tasks, t.id = tid ∧ t.status = "todo" := by
  cases stmt with
  | beginTx => exact h
  | commitTx => exact h
  | deleteSalesForDate k d => exact h
  | insertOrReplaceTaskTodo k d now =>
    obtain ⟨t, ht, hid, hst⟩ := h
    by_cases heq : t.id = create_task_id k d
    · refine ⟨⟨create_task_id k d, k, d, "todo", now, none⟩, ?_, ?_, rfl⟩
      · simp [applyStmt]
      · rw [← heq, hid]
    · refine ⟨t, ?_, hid, hst⟩
      simp only [applyStmt, List.mem_append]
      left
      rw [List.mem_filter]
      exact ⟨ht, by simpa using heq⟩

/-- A todo task with some id survives any statement trace. -/
theorem todo_task_pres_applyStmts (stmts : List SqlStmt) :
    ∀ (s : AppDb) (tid : String),
      (∃ t ∈ s.tasks, t.id = tid ∧ t.status = "todo") →
      ∃ t ∈ (applyStmts s stmts).tasks, t.id = tid ∧ t.status = "todo" := by
  induction stmts with
  | nil => intro s tid h; exact h
  | cons a rest ih =>
    intro s tid h
    exact ih (applyStmt s a) tid (todo_task_pres_applyStmt s a tid h)

/-- C2 counterexample: create_sync_tasks issues no transaction statement at
all — its trace differs from the spec's per-date transaction wrapping — and
after its first autocommit statement the store is in a committed
intermediate state where the facts for the date are deleted but no todo
task for that date exists yet. -/
theorem C2_counterexample :
    (SqlStmt.beginTx ∉ create_sync_tasks_stmts "A" ["2024-01-01"] 99) ∧
    create_sync_tasks_stmts "A" ["2024-01-01"] 99 ≠
      spec_create_tasks_stmts "A" ["2024-01-01"] 99 ∧
    ((applyStmts sampleDb
        ((create_sync_tasks_stmts "A" ["2024-01-01"] 99).take 1)).sales.filter
        (fun r => r.api_key_id == "A" && r.date == "2024-01-01") = [] ∧
      ¬ ∃ t ∈ (applyStmts sampleDb
          ((create_sync_tasks_stmts "A" ["2024-01-01"] 99).take 1)).tasks,
          t.id = create_task_id "A" "2024-01-01" ∧ t.status = "todo") := by
  decide

/-- C2 (amended): for every credential and list of dates, create_sync_tasks
deletes all stored sales facts for each (credential, date) pair and then
inserts or replaces a todo task for that pair — as two separate autocommit
statements rather than one transaction per date — so that after the call
completes no sales row for any processed date remains and a todo task for
each date exists; in particular a second call for a date whose facts were
committed in between leaves zero sales rows for that date until a re-fetch
occurs. -/
theorem C2_create_sync_tasks_effect (st : AppDb) (k : String)
    (dates : List String) (now : Int) :
    ∀ d ∈ dates,
      (create_sync_tasks_run st k dates now).sales.filter
        (fun r => r.api_key_id == k && r.date == d) = [] ∧
      ∃ t ∈ (create_sync_tasks_run st k dates now).tasks,
        t.id = create_task_id k d ∧ t.status = "todo" := by
  induction dates generalizing st with
  | nil => intro d hd; cases hd
  | cons d0 rest ih =>
    intro d hd
    have hrun : create_sync_tasks_run st k (d0 :: rest) now =
        create_sync_tasks_run
          (applyStmt (applyStmt st (.deleteSalesForDate k d0))
            (.insertOrReplaceTaskTodo k d0 now)) k rest now := by
      simp [create_sync_tasks_run, create_sync_tasks_stmts, applyStmts]
    rcases List.mem_cons.mp hd with hd0 | hdr
    · subst hd0
      set st1 := applyStmt (applyStmt st (.deleteSalesForDate k d))
        (.insertOrReplaceTaskTodo k d now) with hst1
      rw [hrun]
      constructor
      · have hmid : st1.sales.filter (fun r => r.api_key_id == k && r.date == d) = [] := by
          rw [hst1]
          simp only [applyStmt]
          exact filter_not_then_filter _ _
        rw [List.filter_eq_nil_iff]
        intro r hr
        have hrs : r ∈ st1.sales :=
          sales_subset_applyStmts _ st1 r (by
            simpa [create_sync_tasks_run] using hr)
        intro hp
        have : r ∈ st1.sales.filter (fun r => r.api_key_id == k && r.date == d) :=
          List.mem_filter.mpr ⟨hrs, hp⟩
        rw [hmid] at this
        cases this
      · apply todo_task_pres_applyStmts
        refine ⟨⟨create_task_id k d, k, d, "todo", now, none⟩, ?_, rfl, rfl⟩
        rw [hst1]
        simp [applyStmt]
    · rw [hrun]
      exact ih _ d hdr

/-- C2 amended-theorem witness: running create_sync_tasks on the sample
store (which holds a committed fact and a done task for credential "A" on
2024-01-01) leaves zero sales rows for that date and a todo task for it. -/
theorem C2_create_sync_tasks_effect_witness :
    (create_sync_tasks_run sampleDb "A" ["2024-01-01"] 99).sales.filter
      (fun r => r.api_key_id == "A" && r.date == "2024-01-01") = [] ∧
    ∃ t ∈ (create_sync_tasks_run sampleDb "A" ["2024-01-01"] 99).tasks,
      t.id = create_task_id "A" "2024-01-01" ∧ t.status = "todo" :=
  C2_create_sync_tasks_effect sampleDb "A" ["2024-01-01"] 99 "2024-01-01"
    (by decide)

/-- C3 counterexample: in the sample state, credential "A" owns a sync-task
row; after delete_api_key (the store-side clear followed by the vault
delete) that task row is still present, so not every trace of the identity
is removed as the claim states. -/
theorem C3_counterexample :
    (delete_api_key_cmd ⟨sampleDb, [("A", "secret")]⟩ "A").db.tasks.filter
      (fun t => t.api_key_id == "A") ≠ [] := by
  decide

/-- C3 (amended): for every credential identity, after credential deletion
(the store-side clear_data_for_key and delete_api_key_info, followed by the
vault delete) no Sales Fact row, no watermark entry, no credential-metadata
row and no vault secret for that identity remains retrievable; Sync Task
rows however are not touched by the deletion (only the separate
delete_sync_tasks_for_key command removes them), and the store-side clear
runs before the vault secret is removed. -/
theorem C3_delete_api_key_clears (st : AppStateM) (id : String) :
    (delete_api_key_cmd st id).db.sales.filter
      (fun r => r.api_key_id == id) = [] ∧
    lookupMeta (delete_api_key_cmd st id).db.syncMeta
      ("highwatermark:" ++ id) = none ∧
    (delete_api_key_cmd st id).db.apiKeys.filter (fun k => k.id == id) = [] ∧
    vaultLookup (delete_api_key_cmd st id).vault id = none ∧
    (delete_api_key_cmd st id).db.tasks = st.db.tasks := by
  refine ⟨?_, ?_, ?_, ?_, rfl⟩
  · simp only [delete_api_key_cmd, delete_api_key_info, clear_data_for_key]
    exact filter_not_then_filter _ _
  · simp only [delete_api_key_cmd, delete_api_key_info, clear_data_for_key,
      lookupMeta]
    rw [find?_filter_not]
    rfl
  · simp only [delete_api_key_cmd, delete_api_key_info, clear_data_for_key]
    exact filter_not_then_filter _ _
  · simp only [delete_api_key_cmd, vault_delete, vaultLookup]
    rw [find?_filter_not]
    rfl

/-- Membership in an ordered insertion. -/
theorem mem_insertByDate (x t : TaskRow) (l : List TaskRow) :
    x ∈ insertByDate t l ↔ x = t ∨ x ∈ l := by
  induction l with
  | nil => simp [insertByDate]
  | cons u rest ih =>
    by_cases h : t.date ≤ u.date
    · simp [insertByDate, h]
    · simp [insertByDate, h, ih]
      tauto

/-- Sorting by date preserves membership. -/
theorem mem_sortByDate (x : TaskRow) (l : List TaskRow) :
    x ∈ sortByDate l ↔ x ∈ l := by
  induction l with
  | nil => simp [sortByDate]
  | cons u rest ih =>
    simp only [sortByDate, List.foldr_cons]
    rw [mem_insertByDate]
    simp only [sortByDate] at ih
    rw [ih]
    simp

/-- C7: every task left in_progress at restart is turned back to todo by
reset_in_progress_tasks without affecting done tasks, a subsequent
get_pending_tasks call returns it with status todo, and in the
spec-modelled startup sequence its resumption is queued before any new
discovery work for any credential. -/
theorem C7_reset_stuck_then_pending (tasks : List TaskRow)
    (credentials : List String) (t : TaskRow)
    (ht : t ∈ tasks) (hstat : t.status = "in_progress") :
    ({ t with status := "todo" } ∈ (reset_in_progress_tasks tasks).1) ∧
    (∀ u ∈ tasks, u.status = "done" → u ∈ (reset_in_progress_tasks tasks).1) ∧
    ({ t with status := "todo" } ∈
      get_pending_tasks (reset_in_progress_tasks tasks).1) ∧
    (∀ cred ∈ credentials,
      (orchestrator_startup tasks credentials).indexOf
          (WorkItem.resume t.id) <
        (orchestrator_startup tasks credentials).indexOf
          (WorkItem.discover cred)) := by
  have hmem : { t with status := "todo" } ∈ (reset_in_progress_tasks tasks).1 := by
    simp only [reset_in_progress_tasks]
    refine List.mem_map.mpr ⟨t, ht, ?_⟩
    simp [hstat]
  have hpend : { t with status := "todo" } ∈
      get_pending_tasks (reset_in_progress_tasks tasks).1 := by
    rw [get_pending_tasks, mem_sortByDate, List.mem_filter]
    exact ⟨hmem, by simp⟩
  refine ⟨hmem, ?_, hpend, ?_⟩
  · intro u hu hdone
    simp only [reset_in_progress_tasks]
    refine List.mem_map.mpr ⟨u, hu, ?_⟩
    rw [hdone]
    simp
  · intro cred hcred
    have hres : WorkItem.resume t.id ∈
        (get_pending_tasks (reset_in_progress_tasks tasks).1).map
          (fun u => WorkItem.resume u.id) :=
      List.mem_map.mpr ⟨{ t with status := "todo" }, hpend, rfl⟩
    have hnotm : WorkItem.discover cred ∉
        (get_pending_tasks (reset_in_progress_tasks tasks).1).map
          (fun u => WorkItem.resume u.id) := by
      intro hmem'
      obtain ⟨u, _, hu⟩ := List.mem_map.mp hmem'
      cases hu
    rw [orchestrator_startup]
    calc ((get_pending_tasks (reset_in_progress_tasks tasks).1).map
            (fun u => WorkItem.resume u.id) ++
          credentials.map WorkItem.discover).indexOf (WorkItem.resume t.id)
        < ((get_pending_tasks (reset_in_progress_tasks tasks).1).map
            (fun u => WorkItem.resume u.id)).length := by
          rw [List.indexOf_append_of_mem hres]
          exact List.indexOf_lt_length.mpr hres
      _ ≤ ((get_pending_tasks (reset_in_progress_tasks tasks).1).map
            (fun u => WorkItem.resume u.id) ++
          credentials.map WorkItem.discover).indexOf (WorkItem.discover cred) := by
          rw [List.indexOf_append_of_not_mem hnotm]
          omega

/-- C7 witness: a concrete store with one in_progress task for "A" and one
done task; after reset the stuck task is todo, pending returns it, and its
resumption precedes discovery for credential "A". -/
theorem C7_reset_stuck_then_pending_witness :
    let tIn : TaskRow := ⟨"A|2024-01-02", "A", "2024-01-02", "in_progress", 0, none⟩
    let tDone : TaskRow := ⟨"A|2024-01-01", "A", "2024-01-01", "done", 0, some 5⟩
    ({ tIn with status := "todo" } ∈
      (reset_in_progress_tasks [tIn, tDone]).1) ∧
    (∀ u ∈ [tIn, tDone], u.status = "done" →
      u ∈ (reset_in_progress_tasks [tIn, tDone]).1) ∧
    ({ tIn with status := "todo" } ∈
      get_pending_tasks (reset_in_progress_tasks [tIn, tDone]).1) ∧
    (∀ cred ∈ ["A"],
      (orchestrator_startup [tIn, tDone] ["A"]).indexOf
          (WorkItem.resume tIn.id) <
        (orchestrator_startup [tIn, tDone] ["A"]).indexOf
          (WorkItem.discover cred)) :=
  C7_reset_stuck_then_pending [⟨"A|2024-01-02", "A", "2024-01-02", "in_progress", 0, none⟩,
    ⟨"A|2024-01-01", "A", "2024-01-01", "done", 0, some 5⟩] ["A"]
    ⟨"A|2024-01-02", "A", "2024-01-02", "in_progress", 0, none⟩
    (by decide) rfl

/-- Whenever migrate_to_v3 succeeds, the recorded version is 3. -/
theorem migrate_to_v3_version (x y : MigStore) (h : migrate_to_v3 x = .ok y) :
    y.version = 3 := by
  unfold migrate_to_v3 at h
  split at h
  · split at h
    · cases h
      rfl
    · cases h
  · split at h
    · cases h
      rfl
    · cases h
  · cases h

/-- C6: running the schema migration twice in a row starting from version 0
leaves the store in the same state as running it once (a second run on the
already-current store is a no-op), and every sales row present before the
version-3 migration is present afterward, carrying a legacy-synthesized
identity key built from date, app_id, package_id, country_code and
api_key_id. -/
theorem C6_migrate_idempotent_and_preserving (s s1 : MigStore)
    (h0 : s.version = 0) (h : init_schema s = .ok s1) :
    init_schema s1 = .ok s1 ∧
    (∀ t, s.salesTable = some (.legacy t) →
      ∃ rows, s1.salesTable = some (.v3 rows) ∧
        ∀ r ∈ t.rows, ∃ r3 ∈ rows,
          r3.date = r.date ∧ r3.app_id = r.app_id ∧
          r3.package_id = r.package_id ∧ r3.country_code = r.country_code ∧
          r3.app_name = r.app_name ∧ r3.units_sold = r.units_sold ∧
          r3.gross_revenue = r.gross_revenue ∧ r3.net_revenue = r.net_revenue ∧
          r3.currency = r.currency ∧
          r3.id = r3.date ++ "|" ++ toString r3.app_id ++ "|" ++
            toString r3.package_id ++ "|" ++ r3.country_code ++ "|" ++
            r3.api_key_id) := by
  have hv3 : migrate_to_v3 (migrate_to_v2 (migrate_to_v1 s)) = .ok s1 := by
    unfold init_schema at h
    rw [h0] at h
    simpa using h
  constructor
  · have hver : s1.version = 3 := migrate_to_v3_version _ _ hv3
    unfold init_schema
    rw [hver]
    simp
  · intro t ht
    have h1 : (migrate_to_v1 s).salesTable = some (.legacy t) := by
      simp [migrate_to_v1, ht]
    obtain ⟨t2, ht2, hcorr⟩ : ∃ t2 : LegacyTable,
        (migrate_to_v2 (migrate_to_v1 s)).salesTable = some (.legacy t2) ∧
        ∀ r ∈ t.rows, ∃ r2 ∈ t2.rows,
          r2.date = r.date ∧ r2.app_id = r.app_id ∧
          r2.package_id = r.package_id ∧ r2.country_code = r.country_code ∧
          r2.app_name = r.app_name ∧ r2.units_sold = r.units_sold ∧
          r2.gross_revenue = r.gross_revenue ∧ r2.net_revenue = r.net_revenue ∧
          r2.currency = r.currency := by
      by_cases hflag : t.hasApiKeyId
      · refine ⟨t, ?_, ?_⟩
        · simp [migrate_to_v2, h1, hflag]
        · intro r hr
          exact ⟨r, hr, rfl, rfl, rfl, rfl, rfl, rfl, rfl, rfl, rfl⟩
      · refine ⟨⟨true, t.rows.map
          (fun r : LegacyRow => { r with api_key_id := some "legacy" })⟩, ?_, ?_⟩
        · simp [migrate_to_v2, h1, hflag]
        · intro r hr
          exact ⟨{ r with api_key_id := some "legacy" },
            List.mem_map.mpr ⟨r, hr, rfl⟩,
            rfl, rfl, rfl, rfl, rfl, rfl, rfl, rfl, rfl⟩
    unfold migrate_to_v3 at hv3
    simp only [ht2] at hv3
    split at hv3
    · cases hv3
      refine ⟨t2.rows.map legacyToV3, rfl, ?_⟩
      intro r hr
      obtain ⟨r2, hr2, hd, ha, hp, hcc, han, hu, hg, hn, hcur⟩ := hcorr r hr
      refine ⟨legacyToV3 r2, List.mem_map.mpr ⟨r2, hr2, rfl⟩, ?_⟩
      refine ⟨hd, ha, hp, hcc, han, hu, hg, hn, hcur, ?_⟩
      simp [legacyToV3, legacyKey]
    · cases hv3

/-- C6 witness: the sample version-0 store with one pre-versioning row
migrates to the version-3 store, and a second run of the migration on that
result is a no-op. -/
theorem C6_migrate_idempotent_witness :
    init_schema sampleMigStoreV3 = .ok sampleMigStoreV3 :=
  (C6_migrate_idempotent_and_preserving sampleMigStore sampleMigStoreV3 rfl
    (by rfl)).1

/-- The last row found under an id carries that id. -/
theorem lastWith_id (rows : List SalesRow) (i : String) (x : SalesRow)
    (h : lastWith rows i = some x) : x.id = i := by
  induction rows with
  | nil => cases h
  | cons r rest ih =>
    simp only [lastWith] at h
    cases hlw : lastWith rest i with
    | some y =>
      rw [hlw] at h
      injection h with h'
      subst h'
      exact ih hlw
    | none =>
      rw [hlw] at h
      by_cases hr : (r.id == i) = true
      · rw [if_pos hr] at h
        injection h with h'
        subst h'
        exact eq_of_beq hr
      · rw [if_neg hr] at h
        cases h

/-- Overwriting never changes a row's id. -/
theorem overwriteBy_id (rows : List SalesRow) (t : SalesRow) :
    (overwriteBy rows t).id = t.id := by
  unfold overwriteBy
  cases hlw : lastWith rows t.id with
  | none => rfl
  | some x => simp [lastWith_id rows t.id x hlw]

/-- A head row whose id nothing later touches contributes its own last
occurrence. -/
theorem overwriteBy_cons_self (r : SalesRow) (rest : List SalesRow) :
    overwriteBy (r :: rest) r = overwriteBy rest r := by
  unfold overwriteBy
  simp only [lastWith]
  cases hlw : lastWith rest r.id with
  | some y => rfl
  | none => simp

/-- Rows whose id differs from the head are overwritten by the tail
alone. -/
theorem overwriteBy_cons_ne (r x : SalesRow) (rest : List SalesRow)
    (h : x.id ≠ r.id) : overwriteBy (r :: rest) x = overwriteBy rest x := by
  unfold overwriteBy
  simp only [lastWith]
  cases hlw : lastWith rest x.id with
  | some y => rfl
  | none =>
    have hb : (r.id == x.id) = false := by
      simpa using fun he => h he.symm
    simp [hb]

/-- Overwriting after an in-place replacement equals overwriting by the
replacement row followed by the rest. -/
theorem overwriteBy_replace (r x : SalesRow) (rest : List SalesRow) :
    overwriteBy rest (if x.id == r.id then r else x) = overwriteBy (r :: rest) x := by
  by_cases hx : (x.id == r.id) = true
  · rw [if_pos hx]
    have hxe : x.id = r.id := eq_of_beq hx
    unfold overwriteBy
    simp only [lastWith, hxe]
    cases hlw : lastWith rest r.id with
    | some y => rfl
    | none => simp
  · rw [if_neg hx]
    have hne : x.id ≠ r.id := by simpa using hx
    exact (overwriteBy_cons_ne r x rest hne).symm

/-- In-place replacement preserves the id column of every row. -/
theorem map_id_replace (t : List SalesRow) (r : SalesRow) :
    (t.map (fun x => if x.id == r.id then r else x)).map SalesRow.id =
      t.map SalesRow.id := by
  rw [List.map_map]
  apply List.map_congr_left
  intro x _
  by_cases h : (x.id == r.id) = true
  · simp [Function.comp, h, (eq_of_beq h).symm]
  · simp [Function.comp, h]

/-- The appended part of an upsert run depends on the seen ids only through
membership. -/
theorem newRowsPart_congr (rows : List SalesRow) :
    ∀ s1 s2 : List String, (∀ i, i ∈ s1 ↔ i ∈ s2) →
      newRowsPart rows s1 = newRowsPart rows s2 := by
  induction rows with
  | nil => intro s1 s2 _; rfl
  | cons r rest ih =>
    intro s1 s2 h
    have hc : s1.contains r.id = s2.contains r.id := by
      by_cases hm : r.id ∈ s1
      · have hm2 : r.id ∈ s2 := (h r.id).mp hm
        have e1 : s1.contains r.id = true := by simpa using hm
        have e2 : s2.contains r.id = true := by simpa using hm2
        rw [e1, e2]
      · have hm2 : r.id ∉ s2 := fun hx => hm ((h r.id).mpr hx)
        have e1 : s1.contains r.id = false := by simpa using hm
        have e2 : s2.contains r.id = false := by simpa using hm2
        rw [e1, e2]
    simp only [newRowsPart, hc]
    by_cases hb : s2.contains r.id = true
    · rw [if_pos hb, if_pos hb]
      exact ih s1 s2 h
    · rw [if_neg hb, if_neg hb]
      rw [ih (r.id :: s1) (r.id :: s2) (by intro i; simp [h i])]

/-- When every id of the batch is already present, nothing is appended. -/
theorem newRowsPart_nil_of_seen (rows : List SalesRow) :
    ∀ seen : List String, (∀ r ∈ rows, r.id ∈ seen) →
      newRowsPart rows seen = [] := by
  induction rows with
  | nil => intro seen _; rfl
  | cons r rest ih =>
    intro seen h
    have hc : seen.contains r.id = true := by
      simpa using h r (List.mem_cons_self r rest)
    simp only [newRowsPart]
    rw [if_pos hc]
    exact ih seen (fun x hx => h x (List.mem_cons_of_mem r hx))

/-- Every appended row carries the value of the last batch row with its
id. -/
theorem newRowsPart_val (rows : List SalesRow) :
    ∀ (seen : List String) (x : SalesRow), x ∈ newRowsPart rows seen →
      lastWith rows x.id = some x := by
  induction rows with
  | nil => intro seen x h; cases h
  | cons r rest ih =>
    intro seen x h
    simp only [newRowsPart] at h
    by_cases hc : seen.contains r.id = true
    · rw [if_pos hc] at h
      have hx := ih seen x h
      simp [lastWith, hx]
    · rw [if_neg hc] at h
      rcases List.mem_cons.mp h with hx | hx
      · obtain ⟨y, hy⟩ : ∃ y, lastWith (r :: rest) r.id = some y := by
          simp only [lastWith]
          cases hlw : lastWith rest r.id with
          | some z => exact ⟨z, rfl⟩
          | none => exact ⟨r, by simp⟩
        have hxy : x = y := by
          rw [hx]
          unfold overwriteBy
          rw [hy]
          rfl
        subst hxy
        rw [lastWith_id _ _ _ hy]
        exact hy
      · have hx2 := ih _ x hx
        simp [lastWith, hx2]

/-- The ids of the appended rows are distinct and all fresh with respect to
the seen ids. -/
theorem newRowsPart_ids (rows : List SalesRow) :
    ∀ seen : List String,
      ((newRowsPart rows seen).map SalesRow.id).Nodup ∧
      ∀ i ∈ (newRowsPart rows seen).map SalesRow.id, i ∉ seen := by
  induction rows with
  | nil => intro seen; exact ⟨List.nodup_nil, by intro i hi; cases hi⟩
  | cons r rest ih =>
    intro seen
    simp only [newRowsPart]
    by_cases hc : seen.contains r.id = true
    · rw [if_pos hc]
      exact ih seen
    · rw [if_neg hc]
      obtain ⟨ihn, ihs⟩ := ih (r.id :: seen)
      have hid : (overwriteBy (r :: rest) r).id = r.id := overwriteBy_id _ _
      constructor
      · rw [List.map_cons, List.nodup_cons, hid]
        refine ⟨?_, ihn⟩
        intro hmem
        exact (ihs r.id hmem) (List.mem_cons_self _ _)
      · intro i hi
        rw [List.map_cons, hid] at hi
        rcases List.mem_cons.mp hi with h1 | hi2
        · intro hmem
          rw [h1] at hmem
          exact hc (by simpa using hmem)
        · intro hmem
          exact (ihs i hi2) (List.mem_cons_of_mem _ hmem)

/-- Every batch row whose id is fresh shows up among the appended ids. -/
theorem newRowsPart_mem_ids (rows : List SalesRow) :
    ∀ (seen : List String) (r : SalesRow), r ∈ rows → r.id ∉ seen →
      r.id ∈ (newRowsPart rows seen).map SalesRow.id := by
  induction rows with
  | nil => intro seen r hr; cases hr
  | cons a rest ih =>
    intro seen r hr hns
    simp only [newRowsPart]
    by_cases hc : seen.contains a.id = true
    · rw [if_pos hc]
      rcases List.mem_cons.mp hr with rfl | hr2
      · exact absurd (by simpa using hc) hns
      · exact ih seen r hr2 hns
    · rw [if_neg hc]
      rw [List.map_cons, overwriteBy_id]
      rcases List.mem_cons.mp hr with rfl | hr2
      · exact List.mem_cons_self _ _
      · by_cases heq : r.id = a.id
        · rw [heq]
          exact List.mem_cons_self _ _
        · refine List.mem_cons_of_mem _ ?_
          refine ih (a.id :: seen) r hr2 ?_
          intro hmem
          rcases List.mem_cons.mp hmem with h1 | h2
          · exact heq h1
          · exact hns h2

/-- Characterization of a sequence of upserts: rows already present are
overwritten in place by the last batch row with their id, and one fresh row
per new id is appended, carrying its last value. -/
theorem foldl_upsertRow_eq (rows : List SalesRow) :
    ∀ t : List SalesRow,
      List.foldl upsertRow t rows =
        t.map (overwriteBy rows) ++ newRowsPart rows (t.map SalesRow.id) := by
  induction rows with
  | nil =>
    intro t
    have hmapid : t.map (overwriteBy ([] : List SalesRow)) = t.map (fun x => x) :=
      List.map_congr_left (fun x _ => rfl)
    simp [newRowsPart, hmapid]
  | cons r rest ih =>
    intro t
    rw [List.foldl_cons]
    by_cases hp : t.any (fun x => x.id == r.id) = true
    · rw [show upsertRow t r = t.map (fun x => if x.id == r.id then r else x) from
        by simp [upsertRow, hp]]
      rw [ih]
      have hcont : (t.map SalesRow.id).contains r.id = true := by
        obtain ⟨x, hx, hxe⟩ := List.any_eq_true.mp hp
        have : r.id ∈ t.map SalesRow.id :=
          List.mem_map.mpr ⟨x, hx, eq_of_beq hxe⟩
        simpa using this
      congr 1
      · rw [List.map_map]
        apply List.map_congr_left
        intro x _
        exact overwriteBy_replace r x rest
      · rw [map_id_replace]
        conv_rhs => rw [newRowsPart]
        rw [if_pos hcont]
    · rw [show upsertRow t r = t ++ [r] from by simp [upsertRow, hp]]
      rw [ih]
      have hne : ∀ x ∈ t, x.id ≠ r.id := by
        intro x hx hxe
        exact hp (List.any_eq_true.mpr ⟨x, hx, by simp [hxe]⟩)
      have hcont2 : (t.map SalesRow.id).contains r.id = false := by
        have : r.id ∉ t.map SalesRow.id := by
          intro hmem
          obtain ⟨x, hx, hxe⟩ := List.mem_map.mp hmem
          exact hne x hx hxe
        simpa using this
      have hmap : t.map (overwriteBy rest) = t.map (overwriteBy (r :: rest)) :=
        List.map_congr_left (fun x hx => (overwriteBy_cons_ne r x rest (hne x hx)).symm)
      conv_rhs => rw [newRowsPart]
      rw [if_neg (by rw [hcont2]; simp)]
      rw [List.map_append, List.map_append]
      simp only [List.map_cons, List.map_nil]
      rw [newRowsPart_congr rest (t.map SalesRow.id ++ [r.id])
        (r.id :: t.map SalesRow.id)
        (by
          intro i
          rw [List.mem_append, List.mem_cons, List.mem_cons]
          simp only [List.not_mem_nil, or_false]
          tauto)]
      rw [hmap]
      rw [show overwriteBy rest r = overwriteBy (r :: rest) r from
        (overwriteBy_cons_self r rest).symm]
      simp [List.append_assoc]

/-- save_sales succeeds on a batch whose records all carry ids, and then
computes the fold of upserts over the generated rows. -/
theorem save_sales_eq_foldl (data : List SalesRecord) :
    ∀ (table : List SalesRow) (k : String),
      (∀ rec ∈ data, rec.id.isSome) →
      save_sales table data k =
        .ok (List.foldl upsertRow table (recordRows data k)) := by
  induction data with
  | nil => intro table k _; rfl
  | cons rec rest ih =>
    intro table k h
    obtain ⟨i, hi⟩ := Option.isSome_iff_exists.mp (h rec (List.mem_cons_self rec rest))
    rw [save_sales, hi]
    rw [show recordRows (rec :: rest) k =
      rowOfRecord i rec k :: recordRows rest k from by simp [recordRows, hi]]
    rw [List.foldl_cons]
    exact ih _ k (fun x hx => h x (List.mem_cons_of_mem rec hx))

/-- When save_sales succeeds, every record carried an id and the result is
the fold of upserts. -/
theorem save_sales_ok_elim (data : List SalesRecord) :
    ∀ (table : List SalesRow) (k : String) (out : List SalesRow),
      save_sales table data k = .ok out →
      (∀ rec ∈ data, rec.id.isSome) ∧
      out = List.foldl upsertRow table (recordRows data k) := by
  induction data with
  | nil =>
    intro table k out h
    injection h with h'
    refine ⟨?_, h'.symm⟩
    intro rec hrec
    cases hrec
  | cons rec rest ih =>
    intro table k out h
    cases hi : rec.id with
    | none =>
      rw [save_sales, hi] at h
      cases h
    | some i =>
      rw [save_sales, hi] at h
      obtain ⟨h1, h2⟩ := ih _ k out h
      constructor
      · intro x hx
        rcases List.mem_cons.mp hx with rfl | hx2
        · simp [hi]
        · exact h1 x hx2
      · rw [show recordRows (rec :: rest) k =
          rowOfRecord i rec k :: recordRows rest k from by simp [recordRows, hi]]
        rw [List.foldl_cons]
        exact h2

/-- Overwriting is idempotent. -/
theorem overwriteBy_overwriteBy (rows : List SalesRow) (y : SalesRow) :
    overwriteBy rows (overwriteBy rows y) = overwriteBy rows y := by
  unfold overwriteBy
  cases hlw : lastWith rows y.id with
  | none => simp [hlw]
  | some z =>
    have hz : z.id = y.id := lastWith_id _ _ _ hlw
    simp [hlw, hz]

/-- C1: upserting a batch through save_sales and then upserting the exact
same batch again leaves the sales store in the same state as upserting it
once; the identity key uniquely determines the row (distinct ids stay
distinct, so no second row with the same id is ever created), and each
record's id is carried by exactly one stored row. -/
theorem C1_save_sales_idempotent (table : List SalesRow)
    (data : List SalesRecord) (k : String) (t1 : List SalesRow)
    (hu : (table.map SalesRow.id).Nodup)
    (h : save_sales table data k = .ok t1) :
    save_sales t1 data k = .ok t1 ∧
    (t1.map SalesRow.id).Nodup ∧
    (∀ rec ∈ data, ∀ i, rec.id = some i →
      (t1.map SalesRow.id).count i = 1) := by
  obtain ⟨hall, ht1⟩ := save_sales_ok_elim data table k t1 h
  have hdec : t1 = table.map (overwriteBy (recordRows data k)) ++
      newRowsPart (recordRows data k) (table.map SalesRow.id) := by
    rw [ht1, foldl_upsertRow_eq]
  have hids : t1.map SalesRow.id = table.map SalesRow.id ++
      (newRowsPart (recordRows data k) (table.map SalesRow.id)).map SalesRow.id := by
    rw [hdec, List.map_append, List.map_map]
    congr 1
    apply List.map_congr_left
    intro x _
    exact overwriteBy_id (recordRows data k) x
  have hsub : ∀ r ∈ recordRows data k, r.id ∈ t1.map SalesRow.id := by
    intro r hr
    rw [hids]
    by_cases hmem : r.id ∈ table.map SalesRow.id
    · exact List.mem_append_left _ hmem
    · exact List.mem_append_right _
        (newRowsPart_mem_ids (recordRows data k) _ r hr hmem)
  have hnodup : (t1.map SalesRow.id).Nodup := by
    rw [hids, List.nodup_append]
    obtain ⟨hn1, hn2⟩ := newRowsPart_ids (recordRows data k) (table.map SalesRow.id)
    exact ⟨hu, hn1, fun a ha hb => (hn2 a hb) ha⟩
  refine ⟨?_, hnodup, ?_⟩
  · rw [save_sales_eq_foldl data t1 k hall]
    congr 1
    rw [foldl_upsertRow_eq]
    rw [newRowsPart_nil_of_seen (recordRows data k) _ (fun r hr => hsub r hr),
      List.append_nil]
    have hfix : ∀ x ∈ t1, overwriteBy (recordRows data k) x = x := by
      intro x hx
      rw [hdec] at hx
      rcases List.mem_append.mp hx with hx1 | hx2
      · obtain ⟨y, _, rfl⟩ := List.mem_map.mp hx1
        exact overwriteBy_overwriteBy (recordRows data k) y
      · have hlv := newRowsPart_val (recordRows data k) _ x hx2
        unfold overwriteBy
        rw [hlv]
        rfl
    have h2 : t1.map (overwriteBy (recordRows data k)) = t1.map (fun x => x) :=
      List.map_congr_left hfix
    simpa using h2
  · intro rec hrec i hi
    have hrmem : rowOfRecord i rec k ∈ recordRows data k := by
      refine List.mem_filterMap.mpr ⟨rec, hrec, ?_⟩
      rw [hi]
      rfl
    have hin : i ∈ t1.map SalesRow.id := hsub _ hrmem
    exact List.count_eq_one_of_mem hnodup hin

/-- C1 witness: saving a one-record batch into the empty store and saving
the same batch again leaves the single stored row unchanged. -/
theorem C1_save_sales_idempotent_witness :
    save_sales [rowOfRecord "x" sampleRecord "A"] [sampleRecord] "A" =
      .ok [rowOfRecord "x" sampleRecord "A"] :=
  (C1_save_sales_idempotent [] [sampleRecord] "A"
    [rowOfRecord "x" sampleRecord "A"] (by simp) (by rfl)).1

end SteamSales
